import Mathlib

/-!
Shallow embedding of `MIDIRecorder.py` (AlwaysOnMIDIRecorder): the
`ChordDetector` sliding-window chord matcher, the `Recorder` session state
machine, and the `on_msg` / watchdog / device-presence orchestration logic.

Modelling conventions:
* `time.monotonic()` readings are passed in explicitly as rationals (`ℚ`);
  Python floats are modelled as exact rationals.
* Python's `round` (round-half-to-even) is modelled by `pyRound`.
* The `mido.Message` objects are modelled by the inductive `Msg`; a MIDI
  track is a list of `(Msg, tick-time)` entries.
* File I/O: `mid.save` either succeeds (producing a `Write` record of the
  filename and serialized track) or raises `IOError`; each close operation
  takes a `saveOk : Bool` flag selecting which, and reports the raised
  exception as a `Bool` error flag (exception propagation is modelled by the
  caller inspecting that flag and skipping the rest of its own body).
* Filenames (derived from `datetime.now()` in the source) are abstracted as
  natural numbers supplied by the caller.
-/

namespace MIDIRec

/-- `mido` message kinds used by the program.  `noteOn`/`noteOff` carry a
note number; `noteOn` also carries a velocity; `setTempo` carries a tempo in
microseconds per beat.  `endOfTrack` and `trackName` are the meta messages the
recorder itself appends; `other` stands for any further message kind. -/
inductive Msg : Type
  | noteOn (note velocity : ℕ)
  | noteOff (note : ℕ)
  | setTempo (tempo : ℕ)
  | endOfTrack
  | trackName
  | other
  deriving DecidableEq, Repr

/-- `msg.note` when `msg.type in ('note_on', 'note_off')`, else `none`. -/
def Msg.noteOnOff : Msg → Option ℕ
  | .noteOn n _ => some n
  | .noteOff n => some n
  | _ => none

/-- `TICKS_PER_BEAT = 480`. -/
def TICKS_PER_BEAT : ℕ := 480

/-- `DEFAULT_TEMPO_US_PER_BEAT = 500000`. -/
def DEFAULT_TEMPO_US_PER_BEAT : ℕ := 500000

/-- `IDLE_TIMEOUT_SECONDS = 60.0`. -/
def IDLE_TIMEOUT_SECONDS : ℚ := 60

/-- `TRIGGER_SPLIT_NOTES = {105, 107, 108}` (as a list of keys). -/
def TRIGGER_SPLIT_NOTES : List ℕ := [105, 107, 108]

/-- `TRIGGER_PAUSE_NOTES = {21, 23, 24}` (as a list of keys). -/
def TRIGGER_PAUSE_NOTES : List ℕ := [21, 23, 24]

/-- `CHORD_WINDOW_SECONDS = 0.150`. -/
def CHORD_WINDOW_SECONDS : ℚ := 150 / 1000

/-- `SUPPRESS_AFTER_TRIGGER_SECONDS = 2.0`. -/
def SUPPRESS_AFTER_TRIGGER_SECONDS : ℚ := 2

/-- Python's built-in `round` on a (here: exact rational) float: round half
to even, returning an integer. -/
def pyRound (q : ℚ) : ℤ :=
  if q - ⌊q⌋ < 1 / 2 then ⌊q⌋
  else if 1 / 2 < q - ⌊q⌋ then ⌊q⌋ + 1
  else if ⌊q⌋ % 2 = 0 then ⌊q⌋ else ⌊q⌋ + 1

/-- `mido.second2tick(second, ticks_per_beat, tempo)`:
`scale = tempo * 1e-6 / ticks_per_beat; return second / scale`. -/
def second2tick (second : ℚ) (ticks_per_beat tempo : ℕ) : ℚ :=
  second / ((tempo : ℚ) * (1 / 1000000) / (ticks_per_beat : ℚ))

/-! ### ChordDetector -/

/-- State of `ChordDetector`: `recent_on` is the deque of
`(timestamp, note)` pairs for positive-velocity note-ons; `suppressed_until`
is the dict from note number to suppression-expiry timestamp, modelled as an
association list without duplicate keys. -/
structure ChordState : Type where
  recent_on : List (ℚ × ℕ)
  suppressed_until : List (ℕ × ℚ)
  deriving DecidableEq, Repr

/-- `ChordDetector.__init__`: empty deque, empty dict. -/
def ChordState.init : ChordState := ⟨[], []⟩

/-- Dict lookup on the association-list model of `suppressed_until`. -/
def dictFind (d : List (ℕ × ℚ)) (k : ℕ) : Option ℚ :=
  (d.find? (fun p => p.1 = k)).map Prod.snd

/-- Dict assignment `d[k] = v`: update the existing entry in place, else
append a new one (Python dicts preserve insertion order). -/
def dictSet (d : List (ℕ × ℚ)) (k : ℕ) (v : ℚ) : List (ℕ × ℚ) :=
  if (d.find? (fun p => p.1 = k)).isSome then
    d.map (fun p => if p.1 = k then (k, v) else p)
  else d ++ [(k, v)]

/-- `ChordDetector._clean_recent`: pop entries older than
`now - CHORD_WINDOW_SECONDS` from the front of the deque. -/
def cleanRecent (now : ℚ) (l : List (ℚ × ℕ)) : List (ℚ × ℕ) :=
  l.dropWhile (fun p => p.1 < now - CHORD_WINDOW_SECONDS)

/-- `ChordDetector._clean_suppressed`: drop every entry whose expiry is
`≤ now`. -/
def cleanSuppressed (now : ℚ) (d : List (ℕ × ℚ)) : List (ℕ × ℚ) :=
  d.filter (fun p => ¬ p.2 ≤ now)

/-- `ChordDetector._arm_suppression(notes)`: set every note of `notes` to
expire at `now + SUPPRESS_AFTER_TRIGGER_SECONDS`. -/
def armSuppression (now : ℚ) (d : List (ℕ × ℚ)) (notes : List ℕ) :
    List (ℕ × ℚ) :=
  notes.foldl (fun d n => dictSet d n (now + SUPPRESS_AFTER_TRIGGER_SECONDS)) d

/-- The chord-detection tail of `ChordDetector.process` (everything after
the suppression check). -/
def processDetect (st : ChordState) (now : ℚ) (msg : Msg) :
    ChordState × Bool × Bool × Bool :=
  match msg with
  | .noteOn n v =>
    if 0 < v then
      let recent := cleanRecent now st.recent_on ++ [(now, n)]
      let seen := recent.map Prod.snd
      if TRIGGER_SPLIT_NOTES.all (fun t => t ∈ seen) then
        (⟨[], armSuppression now st.suppressed_until TRIGGER_SPLIT_NOTES⟩,
          true, false, true)
      else if TRIGGER_PAUSE_NOTES.all (fun t => t ∈ seen) then
        (⟨[], armSuppression now st.suppressed_until TRIGGER_PAUSE_NOTES⟩,
          false, true, true)
      else ({ st with recent_on := recent }, false, false, false)
    else (st, false, false, false)
  | _ => (st, false, false, false)

/-- `ChordDetector.process(msg)`, with the `time.monotonic()` reading passed
in as `now`.  Returns the updated state together with
`(do_split, toggle_pause, suppress_this_msg)`. -/
def process (st : ChordState) (now : ℚ) (msg : Msg) :
    ChordState × Bool × Bool × Bool :=
  let st : ChordState :=
    { st with suppressed_until := cleanSuppressed now st.suppressed_until }
  match msg.noteOnOff with
  | some n =>
    if (dictFind st.suppressed_until n).isSome then (st, false, false, true)
    else processDetect st now msg
  | none => processDetect st now msg

/-- Feed a timed trace of messages through `ChordDetector.process`,
collecting the `(do_split, toggle_pause, suppress)` output of every call. -/
def processTrace (st : ChordState) :
    List (ℚ × Msg) → ChordState × List (Bool × Bool × Bool)
  | [] => (st, [])
  | (t, m) :: rest =>
    let r := process st t m
    let r' := processTrace r.1 rest
    (r'.1, r.2 :: r'.2)

/-! ### Recorder -/

/-- One entry of the in-memory `MidiTrack`: a message together with its
tick-delta (`msg.copy(time=...)`). -/
structure TrackEntry : Type where
  msg : Msg
  time : ℤ
  deriving DecidableEq, Repr

/-- State of a `Recorder`.  `mid`, `track`, `last_event_real` and `filename`
are `None`/non-`None` exactly as in the source; the `MidiFile` handle `mid`
carries no data of its own (its single track is `track`), and filenames are
abstracted as naturals. -/
structure RecState : Type where
  mid : Option Unit
  track : Option (List TrackEntry)
  last_event_real : Option ℚ
  current_tempo : ℕ
  filename : Option ℕ
  deriving DecidableEq, Repr

/-- `Recorder.__init__`. -/
def RecState.init : RecState :=
  ⟨none, none, none, DEFAULT_TEMPO_US_PER_BEAT, none⟩

/-- A successful `mid.save(tmp); os.replace(tmp, filename)`: the final
filename together with the serialized track. -/
structure Write : Type where
  filename : ℕ
  track : List TrackEntry
  deriving DecidableEq, Repr

/-- `Recorder._seconds_to_ticks`:
`max(0, int(round(mido.second2tick(seconds, TICKS_PER_BEAT, tempo))))`. -/
def seconds_to_ticks (seconds : ℚ) (tempo : ℕ) : ℤ :=
  max 0 (pyRound (second2tick seconds TICKS_PER_BEAT tempo))

/-- `Recorder.start()`, with the clock reading and the
`datetime.now()`-derived filename passed in. -/
def start (now : ℚ) (fname : ℕ) (s : RecState) : RecState :=
  if s.mid.isSome then s
  else
    { mid := some ()
      track := some [⟨.setTempo s.current_tempo, 0⟩, ⟨.trackName, 0⟩]
      last_event_real := some now
      current_tempo := s.current_tempo
      filename := some fname }

/-- `Recorder._append_with_delta(msg)`.  The two `time.monotonic()` reads in
the source (one in `start`, one here) are modelled as the same instant.
`self.track.append` assumes `track` is non-`None`; the `getD []` default is
never exercised from the public operations (see the session invariant). -/
def append_with_delta (now : ℚ) (msg : Msg) (s : RecState) : RecState :=
  let delta_sec : ℚ := match s.last_event_real with
    | none => 0
    | some t => now - t
  { s with
    last_event_real := some now
    track := some (s.track.getD [] ++
      [⟨msg, seconds_to_ticks delta_sec s.current_tempo⟩]) }

/-- `Recorder.feed(msg)`. -/
def feed (now : ℚ) (fname : ℕ) (msg : Msg) (s : RecState) : RecState :=
  let s := if s.mid.isNone then start now fname s else s
  match msg with
  | .setTempo tempo => { append_with_delta now msg s with current_tempo := tempo }
  | _ => append_with_delta now msg s

/-- `Recorder.time_since_last_event()`. -/
def time_since_last_event (now : ℚ) (s : RecState) : Option ℚ :=
  s.last_event_real.map (fun t => now - t)

/-- Outcome of a close operation: the state after the call, the file write
performed (if any), and whether `mid.save` raised `IOError` (in which case
the exception propagates: state mutations after the `save` line are
skipped). -/
structure CloseResult : Type where
  state : RecState
  write : Option Write
  ioError : Bool
  deriving DecidableEq, Repr

/-- `Recorder._close_with_delta(elapsed, reason)`.  `saveOk` selects whether
`mid.save` succeeds or raises `IOError`. -/
def close_with_delta (saveOk : Bool) (elapsed : ℚ) (s : RecState) :
    CloseResult :=
  if s.mid.isNone then ⟨s, none, false⟩
  else
    let track' := s.track.getD [] ++
      [⟨.endOfTrack, seconds_to_ticks elapsed s.current_tempo⟩]
    if saveOk then
      ⟨⟨none, none, none, DEFAULT_TEMPO_US_PER_BEAT, none⟩,
        some ⟨s.filename.getD 0, track'⟩, false⟩
    else ⟨{ s with track := some track' }, none, true⟩

/-- `Recorder.stop_if_idle(idle_seconds)`.  The extra `Bool` is the source
function's return value (meaningless when `ioError` is set, since the
exception propagates before `return True`). -/
def stop_if_idle (saveOk : Bool) (now idle_seconds : ℚ) (s : RecState) :
    CloseResult × Bool :=
  if s.mid.isNone ∨ s.last_event_real.isNone then (⟨s, none, false⟩, false)
  else
    let elapsed := now - s.last_event_real.getD 0
    if elapsed < idle_seconds then (⟨s, none, false⟩, false)
    else (close_with_delta saveOk elapsed s, true)

/-- `Recorder.split_now()`. -/
def split_now (saveOk : Bool) (now : ℚ) (s : RecState) : CloseResult :=
  if s.mid.isNone then ⟨s, none, false⟩
  else
    let elapsed : ℚ := match s.last_event_real with
      | none => 0
      | some t => now - t
    close_with_delta saveOk elapsed s

/-- `Recorder.force_close()`: appends `end_of_track` with `time=0` and
writes, then resets; a no-op when no session is open. -/
def force_close (saveOk : Bool) (s : RecState) : CloseResult :=
  if s.mid.isNone then ⟨s, none, false⟩
  else
    let track' := s.track.getD [] ++ [⟨.endOfTrack, 0⟩]
    if saveOk then
      ⟨⟨none, none, none, DEFAULT_TEMPO_US_PER_BEAT, none⟩,
        some ⟨s.filename.getD 0, track'⟩, false⟩
    else ⟨{ s with track := some track' }, none, true⟩

/-! ### Orchestrator (`monitor_loop` internals) -/

/-- The orchestrator's mutable state: the single `Recorder`, the single
`ChordDetector`, and the `paused` event flag. -/
structure OrchState : Type where
  recorder : RecState
  detector : ChordState
  paused : Bool
  deriving DecidableEq, Repr

/-- Initial orchestrator state (`monitor_loop` locals before any event). -/
def OrchState.init : OrchState := ⟨RecState.init, ChordState.init, false⟩

/-- The `on_msg` callback.  If `recorder.split_now()` raises `IOError` on
the pause-toggle path, the exception propagates out of the callback and
`paused.set()` on the next line never runs. -/
def on_msg (saveOk : Bool) (now : ℚ) (fname : ℕ) (msg : Msg)
    (o : OrchState) : OrchState :=
  let r := process o.detector now msg
  let det1 := r.1
  let do_split := r.2.1
  let toggle_pause := r.2.2.1
  let suppress := r.2.2.2
  if toggle_pause then
    if !o.paused then
      let c := split_now saveOk now o.recorder
      if c.ioError then { o with detector := det1, recorder := c.state }
      else ⟨c.state, det1, true⟩
    else { o with detector := det1, paused := false }
  else if do_split then
    { o with detector := det1, recorder := (split_now saveOk now o.recorder).state }
  else if suppress then { o with detector := det1 }
  else if o.paused then { o with detector := det1 }
  else { o with detector := det1, recorder := feed now fname msg o.recorder }

/-- One tick of the `idle_watchdog` thread: `stop_if_idle` under a
`try/except` that swallows any exception. -/
def watchdogTick (saveOk : Bool) (now : ℚ) (o : OrchState) : OrchState :=
  { o with recorder := (stop_if_idle saveOk now IDLE_TIMEOUT_SECONDS o.recorder).1.state }

/-- The device-presence loop's reaction to a vanished device, and the clean
shutdown path: both call `recorder.force_close()`. -/
def deviceClose (saveOk : Bool) (o : OrchState) : OrchState :=
  { o with recorder := (force_close saveOk o.recorder).state }

/-- The events that mutate orchestrator state, across all three threads. -/
inductive OrchOp : Type
  | event (now : ℚ) (fname : ℕ) (saveOk : Bool) (msg : Msg)
  | watchdog (now : ℚ) (saveOk : Bool)
  | disconnect (saveOk : Bool)
  | shutdown (saveOk : Bool)
  deriving DecidableEq, Repr

/-- Interpretation of one `OrchOp`. -/
def orchStep (o : OrchState) : OrchOp → OrchState
  | .event now fname saveOk msg => on_msg saveOk now fname msg o
  | .watchdog now saveOk => watchdogTick saveOk now o
  | .disconnect saveOk => deviceClose saveOk o
  | .shutdown saveOk => deviceClose saveOk o

/-- Run a sequence of orchestrator events from the initial state. -/
def runOrch (ops : List OrchOp) : OrchState :=
  ops.foldl orchStep OrchState.init

/-- The public operations of `Recorder` (`_now()` readings and
filenames passed explicitly; `saveOk` selects `IOError` on close paths). -/
inductive RecOp : Type
  | opStart (now : ℚ) (fname : ℕ)
  | opFeed (now : ℚ) (fname : ℕ) (msg : Msg)
  | opTimeSince (now : ℚ)
  | opStopIfIdle (saveOk : Bool) (now idle : ℚ)
  | opSplitNow (saveOk : Bool) (now : ℚ)
  | opForceClose (saveOk : Bool)
  deriving DecidableEq, Repr

/-- Interpretation of one `RecOp` on the recorder state
(`time_since_last_event` is read-only). -/
def recStep (s : RecState) : RecOp → RecState
  | .opStart now fname => start now fname s
  | .opFeed now fname msg => feed now fname msg s
  | .opTimeSince _ => s
  | .opStopIfIdle saveOk now idle => ((stop_if_idle saveOk now idle s).1).state
  | .opSplitNow saveOk now => (split_now saveOk now s).state
  | .opForceClose saveOk => (force_close saveOk s).state

/-- Run a sequence of public `Recorder` operations from `__init__`. -/
def runRec (ops : List RecOp) : RecState :=
  ops.foldl recStep RecState.init

/-- The session coherence invariant: the four optional session fields are
all `None` or all non-`None`, and in the former case the tempo is back at
`DEFAULT_TEMPO_US_PER_BEAT`. -/
def SessionInv (s : RecState) : Prop :=
  (s.mid = none ∧ s.track = none ∧ s.last_event_real = none ∧
    s.filename = none ∧ s.current_tempo = DEFAULT_TEMPO_US_PER_BEAT) ∨
  (s.mid.isSome ∧ s.track.isSome ∧ s.last_event_real.isSome ∧
    s.filename.isSome)

/-- The orchestrator state-machine invariant of the spec: the only
reachable paused configuration is `NoSession × Paused`. -/
def PausedNoSession (o : OrchState) : Prop :=
  o.paused = true → o.recorder.mid = none

/-- Whether a message is a note-on with strictly positive velocity (the
events that participate in chord detection). -/
def isPosNoteOn : Msg → Bool
  | .noteOn _ v => 0 < v
  | _ => false

/-- Whether a message is a tempo-change. -/
def isSetTempo : Msg → Bool
  | .setTempo _ => true
  | _ => false

/-- Feed a timed trace of messages through `Recorder.feed` (the filename
parameter only matters on autostart). -/
def feedTrace (evs : List (ℚ × Msg)) (fname : ℕ) (s : RecState) : RecState :=
  evs.foldl (fun s e => feed e.1 fname e.2 s) s

/-- The inter-arrival delays of a time sequence, measured from `t0`. -/
def delays (t0 : ℚ) : List ℚ → List ℚ
  | [] => []
  | t :: rest => (t - t0) :: delays t rest

/-- Decoding a recorded tick-delta back to seconds at a given tempo:
`ticks * (tempo / 1e6) / TICKS_PER_BEAT`. -/
def tick2second (ticks : ℤ) (tempo : ℕ) : ℚ :=
  (ticks : ℚ) * ((tempo : ℚ) / 1000000) / (TICKS_PER_BEAT : ℚ)

/-! ## Concrete fixtures used by witnesses -/

/-- The two meta entries `start` writes at tempo 500000. -/
def trC2 : List TrackEntry := [⟨.setTempo 500000, 0⟩, ⟨.trackName, 0⟩]

/-- A concrete open session: started at time 0 with filename 7. -/
def recC2 : RecState := ⟨some (), some trC2, some 0, 500000, some 7⟩

/-- The pause chord struck from the initial orchestrator state. -/
def opsC4 : List OrchOp :=
  [.event 0 5 true (.noteOn 21 64), .event (1/20) 5 true (.noteOn 23 64),
    .event (1/10) 5 true (.noteOn 24 64)]

/-- Three positive note-ons covering the split chord, spaced exactly
150 ms apart. -/
def evsC5 : List (ℚ × Msg) :=
  [(0, .noteOn 105 64), (3/20, .noteOn 107 64), (3/10, .noteOn 108 64)]

/-- On/off events of split-chord notes within 2 s after a trigger at
`t3 = 3/20`. -/
def postC1 : List (ℚ × Msg) := [(1/5, .noteOff 108), (1, .noteOn 105 50)]

/-! ## Lemmas about rounding and tick conversion -/

theorem pyRound_le (q : ℚ) : (pyRound q : ℚ) ≤ q + 1 / 2 := by
  have h0 : (⌊q⌋ : ℚ) ≤ q := Int.floor_le q
  have h1 : q < ⌊q⌋ + 1 := Int.lt_floor_add_one q
  unfold pyRound
  split_ifs with hlt hgt heven <;> push_cast <;> linarith

theorem le_pyRound (q : ℚ) : q - 1 / 2 ≤ (pyRound q : ℚ) := by
  have h0 : (⌊q⌋ : ℚ) ≤ q := Int.floor_le q
  have h1 : q < ⌊q⌋ + 1 := Int.lt_floor_add_one q
  unfold pyRound
  split_ifs with hlt hgt heven <;> push_cast <;> linarith

theorem pyRound_nonneg {q : ℚ} (h : 0 ≤ q) : 0 ≤ pyRound q := by
  have hb := le_pyRound q
  by_contra hneg
  push_neg at hneg
  have h1 : pyRound q ≤ -1 := by omega
  have h2 : (pyRound q : ℚ) ≤ -1 := by exact_mod_cast h1
  linarith

theorem pyRound_nonpos {q : ℚ} (h : q < 0) : pyRound q ≤ 0 := by
  have hb := pyRound_le q
  by_contra hpos
  push_neg at hpos
  have : (1 : ℚ) ≤ (pyRound q : ℚ) := by exact_mod_cast hpos
  linarith

/-- C6: for every elapsed-time input and every tempo, the tick-delta of
`Recorder._seconds_to_ticks` equals
`max(0, round(elapsed_seconds / (tempo_microseconds_per_beat / 1_000_000) * 480))`
(the spec's decoding formula), is a non-negative integer, and is clamped to
zero on negative elapsed time. -/
theorem c6_tick_delta_formula (s : ℚ) (tempo : ℕ) :
    seconds_to_ticks s tempo
        = max 0 (pyRound (s / ((tempo : ℚ) / 1000000) * 480)) ∧
      0 ≤ seconds_to_ticks s tempo ∧
      (s < 0 → seconds_to_ticks s tempo = 0) := by
  have key : second2tick s TICKS_PER_BEAT tempo
      = s / ((tempo : ℚ) / 1000000) * 480 := by
    rcases eq_or_ne ((tempo : ℚ)) 0 with h | h
    · simp [second2tick, h]
    · unfold second2tick TICKS_PER_BEAT
      field_simp
      ring
  refine ⟨by rw [seconds_to_ticks, key], le_max_left _ _, fun hs => ?_⟩
  rcases eq_or_ne ((tempo : ℚ)) 0 with h | h
  · simp [seconds_to_ticks, second2tick, h, pyRound]
  · have ht : (0 : ℚ) < (tempo : ℚ) :=
      lt_of_le_of_ne (by positivity) (Ne.symm h)
    have hx : second2tick s TICKS_PER_BEAT tempo < 0 := by
      rw [key]
      have h1 : s / ((tempo : ℚ) / 1000000) < 0 :=
        div_neg_of_neg_of_pos hs (by positivity)
      nlinarith
    have hp := pyRound_nonpos hx
    rw [seconds_to_ticks]
    exact max_eq_left hp

/-- Witness for C6 at a concrete negative elapsed time. -/
theorem c6_tick_delta_formula_witness :
    seconds_to_ticks (-1 : ℚ) 500000 = 0 :=
  (c6_tick_delta_formula (-1) 500000).2.2 (by norm_num)

/-- C2: feeding a tempo-change event to an open session appends it with a
tick-delta computed from the *old* tempo, leaves all previously appended
entries unchanged, updates the current tempo to the event's tempo only
afterwards, and every subsequent event's tick-delta is computed with the
new tempo. -/
theorem c2_feed_tempo_change (s : RecState) (now : ℚ) (fname : ℕ) (T : ℕ)
    (tr : List TrackEntry) (t0 : ℚ)
    (hmid : s.mid = some ()) (htrack : s.track = some tr)
    (hlast : s.last_event_real = some t0) :
    (feed now fname (.setTempo T) s).track
        = some (tr ++
            [⟨.setTempo T, seconds_to_ticks (now - t0) s.current_tempo⟩]) ∧
      (feed now fname (.setTempo T) s).current_tempo = T ∧
      ∀ now2 fname2 msg2,
        (feed now2 fname2 msg2 (feed now fname (.setTempo T) s)).track
          = some (tr ++
              [⟨.setTempo T, seconds_to_ticks (now - t0) s.current_tempo⟩] ++
              [⟨msg2, seconds_to_ticks (now2 - now) T⟩]) := by
  refine ⟨?_, ?_, ?_⟩
  · simp [feed, append_with_delta, hmid, htrack, hlast]
  · simp [feed, append_with_delta, hmid]
  · intro now2 fname2 msg2
    cases msg2 <;>
      simp [feed, append_with_delta, hmid, htrack, hlast, List.append_assoc]

/-- Witness for C2 on a concrete open session. -/
theorem c2_feed_tempo_change_witness :
    (feed 1 8 (.setTempo 600000) recC2).track
        = some (trC2 ++ [⟨.setTempo 600000, seconds_to_ticks 1 500000⟩]) ∧
      (feed 1 8 (.setTempo 600000) recC2).current_tempo = 600000 ∧
      (feed 2 9 .other (feed 1 8 (.setTempo 600000) recC2)).track
        = some (trC2 ++ [⟨.setTempo 600000, seconds_to_ticks 1 500000⟩] ++
            [⟨.other, seconds_to_ticks 1 600000⟩]) := by
  obtain ⟨h1, h2, h3⟩ :=
    c2_feed_tempo_change recC2 1 8 600000 trC2 0 rfl rfl rfl
  exact ⟨by simpa using h1, h2,
    by simpa [recC2, show (2 : ℚ) - 1 = 1 by norm_num] using h3 2 9 .other⟩

/-- C8: `force_close` is idempotent: on an open session the first call
appends the end-of-track marker with zero trailing delta, writes the file
once and resets to the no-session state, and the second call is a complete
no-op (no write, no state change, no error). -/
theorem c8_force_close_idempotent (s : RecState) (tr : List TrackEntry)
    (fn : ℕ) (hmid : s.mid = some ()) (htr : s.track = some tr)
    (hfn : s.filename = some fn) :
    force_close true s
        = ⟨RecState.init, some ⟨fn, tr ++ [⟨.endOfTrack, 0⟩]⟩, false⟩ ∧
      force_close true (force_close true s).state
        = ⟨(force_close true s).state, none, false⟩ := by
  have h1 : force_close true s
      = ⟨RecState.init, some ⟨fn, tr ++ [⟨.endOfTrack, 0⟩]⟩, false⟩ := by
    simp [force_close, hmid, htr, hfn, RecState.init]
  refine ⟨h1, ?_⟩
  rw [h1]
  simp [force_close, RecState.init]

/-- Witness for C8 on a concrete open session. -/
theorem c8_force_close_idempotent_witness :
    force_close true recC2
        = ⟨RecState.init, some ⟨7, trC2 ++ [⟨.endOfTrack, 0⟩]⟩, false⟩ ∧
      force_close true (force_close true recC2).state
        = ⟨(force_close true recC2).state, none, false⟩ :=
  c8_force_close_idempotent recC2 trC2 7 rfl rfl rfl

/-- C3 counterexample: when `mid.save` raises `IOError` during
finalization, the in-memory session state is NOT reset to the no-session
state: the session stays open and a subsequent `feed` continues it (the old
filename is kept) instead of starting a brand-new session. -/
theorem c3_counterexample :
    (force_close false recC2).ioError = true ∧
      (force_close false recC2).state.mid = some () ∧
      (force_close false recC2).state ≠ RecState.init ∧
      (feed 1 9 .other (force_close false recC2).state).filename = some 7 := by
  refine ⟨rfl, rfl, ?_, rfl⟩
  decide

/-- C3 amended: if the file write raises `IOError` during finalization (via
`stop_if_idle`, `split_now` or `force_close`), the exception propagates and
the in-memory session state is NOT reset: the session remains open (only the
end-of-track marker has been appended to the in-memory track), no file write
happens, and a subsequent `feed` appends to the existing session (same
filename) rather than starting a new one. -/
theorem c3_ioerror_leaves_session_open (s : RecState) (tr : List TrackEntry)
    (hmid : s.mid = some ()) (htr : s.track = some tr) :
    (force_close false s).ioError = true ∧
      (force_close false s).write = none ∧
      (force_close false s).state
        = { s with track := some (tr ++ [⟨.endOfTrack, 0⟩]) } ∧
      (∀ now fname msg,
        (feed now fname msg (force_close false s).state).filename
            = s.filename ∧
          (feed now fname msg (force_close false s).state).mid = some ()) ∧
      (∀ now, (split_now false now s).ioError = true ∧
        (split_now false now s).state.mid = some ()) ∧
      (∀ now t0 idle, s.last_event_real = some t0 → idle ≤ now - t0 →
        (stop_if_idle false now idle s).1.ioError = true ∧
          (stop_if_idle false now idle s).1.state.mid = some ()) := by
  have hfc : force_close false s
      = ⟨{ s with track := some (tr ++ [⟨.endOfTrack, 0⟩]) }, none, true⟩ := by
    simp [force_close, hmid, htr]
  refine ⟨by rw [hfc], by rw [hfc], by rw [hfc], ?_, ?_, ?_⟩
  · intro now fname msg
    rw [hfc]
    cases msg <;> simp [feed, append_with_delta, hmid]
  · intro now
    simp [split_now, close_with_delta, hmid, htr]
  · intro now t0 idle hlast hidle
    have hlt : ¬ now - t0 < idle := not_lt.mpr hidle
    simp [stop_if_idle, close_with_delta, hmid, htr, hlast, hlt]

/-- Witness for the amended C3 on a concrete open session. -/
theorem c3_ioerror_leaves_session_open_witness :
    (force_close false recC2).ioError = true ∧
      (force_close false recC2).state
        = { recC2 with track := some (trC2 ++ [⟨.endOfTrack, 0⟩]) } ∧
      (feed 1 9 .other (force_close false recC2).state).filename
        = recC2.filename ∧
      (split_now false 1 recC2).ioError = true ∧
      (stop_if_idle false 61 60 recC2).1.ioError = true := by
  obtain ⟨h1, _, h3, h4, h5, h6⟩ :=
    c3_ioerror_leaves_session_open recC2 trC2 rfl rfl
  exact ⟨h1, h3, (h4 1 9 .other).1, (h5 1).1,
    (h6 61 0 60 rfl (by norm_num)).1⟩

/-! ## The session coherence invariant (C10) -/

theorem sessionInv_init : SessionInv RecState.init :=
  Or.inl ⟨rfl, rfl, rfl, rfl, rfl⟩

theorem sessionInv_append (now : ℚ) (msg : Msg) (s : RecState)
    (hmid : s.mid.isSome) (hfn : s.filename.isSome) :
    SessionInv (append_with_delta now msg s) := by
  right
  refine ⟨hmid, ?_, ?_, hfn⟩ <;> simp [append_with_delta]

theorem sessionInv_start (now : ℚ) (fname : ℕ) (s : RecState)
    (h : SessionInv s) : SessionInv (start now fname s) := by
  by_cases hm : s.mid.isSome
  · simpa [start, hm] using h
  · right
    simp [start, hm]

theorem sessionInv_feed (now : ℚ) (fname : ℕ) (msg : Msg) (s : RecState)
    (h : SessionInv s) : SessionInv (feed now fname msg s) := by
  have hopen : ∀ s1 : RecState, s1.mid.isSome → s1.filename.isSome →
      SessionInv (match msg with
        | .setTempo tempo =>
            { append_with_delta now msg s1 with current_tempo := tempo }
        | _ => append_with_delta now msg s1) := by
    intro s1 h1 h2
    have hap : (append_with_delta now msg s1).mid.isSome ∧
        (append_with_delta now msg s1).track.isSome ∧
        (append_with_delta now msg s1).last_event_real.isSome ∧
        (append_with_delta now msg s1).filename.isSome := by
      refine ⟨?_, ?_, ?_, ?_⟩ <;> simp [append_with_delta, h1, h2]
    cases msg <;> exact Or.inr (by simpa using hap)
  simp only [feed]
  by_cases hm : s.mid.isNone = true
  · have hm' : s.mid = none := Option.isNone_iff_eq_none.mp hm
    have hs : (start now fname s).mid.isSome ∧
        (start now fname s).filename.isSome := by
      constructor <;> simp [start, hm']
    simp only [hm, if_true]
    exact hopen _ hs.1 hs.2
  · have hm' : s.mid.isNone = false := by
      cases hn : s.mid.isNone
      · rfl
      · exact absurd hn hm
    rcases h with ⟨h1, _⟩ | ⟨h1, _, _, h4⟩
    · simp [h1] at hm'
    · simp only [hm', Bool.false_eq_true, if_false]
      exact hopen s h1 h4

theorem sessionInv_close_with_delta (saveOk : Bool) (elapsed : ℚ)
    (s : RecState) (h : SessionInv s) :
    SessionInv (close_with_delta saveOk elapsed s).state := by
  by_cases hm : s.mid.isSome
  · rcases h with ⟨h1, _⟩ | ⟨h1, h2, h3, h4⟩
    · rw [h1] at hm; simp at hm
    · cases saveOk <;>
        simp [close_with_delta, Option.isSome_iff_ne_none.mp hm]
      · exact Or.inr ⟨h1, by simp, h3, h4⟩
      · exact sessionInv_init
  · have hm' : s.mid = none := Option.not_isSome_iff_eq_none.mp hm
    simpa [close_with_delta, hm'] using h

theorem sessionInv_force_close (saveOk : Bool) (s : RecState)
    (h : SessionInv s) : SessionInv (force_close saveOk s).state := by
  by_cases hm : s.mid.isSome
  · rcases h with ⟨h1, _⟩ | ⟨h1, h2, h3, h4⟩
    · rw [h1] at hm; simp at hm
    · cases saveOk <;>
        simp [force_close, Option.isSome_iff_ne_none.mp hm]
      · exact Or.inr ⟨h1, by simp, h3, h4⟩
      · exact sessionInv_init
  · have hm' : s.mid = none := Option.not_isSome_iff_eq_none.mp hm
    simpa [force_close, hm'] using h

theorem sessionInv_recStep (s : RecState) (op : RecOp) (h : SessionInv s) :
    SessionInv (recStep s op) := by
  cases op with
  | opStart now fname => exact sessionInv_start now fname s h
  | opFeed now fname msg => exact sessionInv_feed now fname msg s h
  | opTimeSince now => exact h
  | opStopIfIdle saveOk now idle =>
    simp only [recStep, stop_if_idle]
    split_ifs with h1 h2
    · exact h
    · exact h
    · exact sessionInv_close_with_delta saveOk _ s h
  | opSplitNow saveOk now =>
    simp only [recStep, split_now]
    split_ifs with h1
    · exact h
    · exact sessionInv_close_with_delta saveOk _ s h
  | opForceClose saveOk => exact sessionInv_force_close saveOk s h

/-- C10: in every `Recorder` state reachable by any sequence of the public
operations, the four session fields `mid`, `track`, `last_event_real` and
`filename` are all `None` (with `current_tempo` back at the default 500000)
or all non-`None`; and each single operation preserves this invariant. -/
theorem c10_session_fields_coherent :
    (∀ ops : List RecOp, SessionInv (runRec ops)) ∧
      ∀ (s : RecState) (op : RecOp), SessionInv s → SessionInv (recStep s op) := by
  constructor
  · intro ops
    rw [runRec]
    have : ∀ s : RecState, SessionInv s → SessionInv (ops.foldl recStep s) := by
      induction ops with
      | nil => intro s hs; simpa using hs
      | cons op rest ih =>
        intro s hs
        exact ih _ (sessionInv_recStep s op hs)
    exact this _ sessionInv_init
  · exact sessionInv_recStep

/-- Witness for C10 on a concrete operation sequence. -/
theorem c10_session_fields_coherent_witness :
    SessionInv (runRec [.opFeed 1 3 (.noteOn 60 100), .opForceClose true]) :=
  c10_session_fields_coherent.1 [.opFeed 1 3 (.noteOn 60 100), .opForceClose true]

/-! ## The paused-implies-no-session invariant (C4) -/

theorem split_now_state_of_closed (k : Bool) (now : ℚ) (s : RecState)
    (h : s.mid = none) : (split_now k now s).state = s := by
  simp [split_now, h]

theorem stop_if_idle_state_of_closed (k : Bool) (now idle : ℚ)
    (s : RecState) (h : s.mid = none) :
    (stop_if_idle k now idle s).1.state = s := by
  simp [stop_if_idle, h]

theorem force_close_state_of_closed (k : Bool) (s : RecState)
    (h : s.mid = none) : (force_close k s).state = s := by
  simp [force_close, h]

theorem split_now_mid_of_ok (k : Bool) (now : ℚ) (s : RecState)
    (h : (split_now k now s).ioError = false) :
    (split_now k now s).state.mid = none := by
  by_cases hm : s.mid.isNone = true
  · have hm' : s.mid = none := Option.isNone_iff_eq_none.mp hm
    simp [split_now, hm', hm]
  · have hm' : s.mid.isNone = false := by
      cases hn : s.mid.isNone
      · rfl
      · exact absurd hn hm
    cases k
    · exfalso
      simp [split_now, close_with_delta, hm'] at h
    · simp [split_now, close_with_delta, hm']

theorem pausedNoSession_orchStep (o : OrchState) (op : OrchOp)
    (h : PausedNoSession o) : PausedNoSession (orchStep o op) := by
  cases op with
  | event now fname saveOk msg =>
    simp only [orchStep, on_msg]
    split_ifs with ht hnp hio hds hsup hpd
    · intro hp
      simp only at hp
      rw [Bool.not_eq_true'] at hnp
      simp [hp] at hnp
    · intro _
      exact split_now_mid_of_ok saveOk now o.recorder (by
        cases herr : (split_now saveOk now o.recorder).ioError
        · rfl
        · exact absurd herr hio)
    · intro hp
      simp at hp
    · intro hp
      simp only at hp
      have hm := h hp
      simp only
      rw [split_now_state_of_closed saveOk now o.recorder hm]
      exact hm
    · exact h
    · exact h
    · intro hp
      simp only at hp
      exact absurd hp hpd
  | watchdog now saveOk =>
    intro hp
    simp only [orchStep, watchdogTick] at hp ⊢
    have hm := h hp
    rw [stop_if_idle_state_of_closed saveOk now IDLE_TIMEOUT_SECONDS o.recorder hm]
    exact hm
  | disconnect saveOk =>
    intro hp
    simp only [orchStep, deviceClose] at hp ⊢
    have hm := h hp
    rw [force_close_state_of_closed saveOk o.recorder hm]
    exact hm
  | shutdown saveOk =>
    intro hp
    simp only [orchStep, deviceClose] at hp ⊢
    have hm := h hp
    rw [force_close_state_of_closed saveOk o.recorder hm]
    exact hm

/-- C4: in every reachable orchestrator state, `paused = true` implies that
no recording session is open (the only reachable paused configuration is
`NoSession × Paused`). -/
theorem c4_paused_implies_no_session (ops : List OrchOp) :
    PausedNoSession (runOrch ops) := by
  rw [runOrch]
  have main : ∀ o : OrchState, PausedNoSession o →
      PausedNoSession (ops.foldl orchStep o) := by
    induction ops with
    | nil => intro o ho; simpa using ho
    | cons op rest ih =>
      intro o ho
      exact ih _ (pausedNoSession_orchStep o op ho)
  exact main _ (by intro hp; simp [OrchState.init] at hp)

/-- Witness for C4: after a concrete pause-chord trace the orchestrator is
paused, and the invariant theorem yields that no session is open. -/
theorem c4_paused_implies_no_session_witness :
    (runOrch opsC4).paused = true ∧ (runOrch opsC4).recorder.mid = none := by
  have hpaused : (runOrch opsC4).paused = true := by
    norm_num [runOrch, opsC4, orchStep, on_msg, process, processDetect,
      OrchState.init, ChordState.init, RecState.init, cleanRecent,
      cleanSuppressed, dictFind, dictSet, armSuppression, split_now,
      close_with_delta, feed, start, append_with_delta, seconds_to_ticks,
      second2tick, pyRound, TICKS_PER_BEAT, DEFAULT_TEMPO_US_PER_BEAT,
      Msg.noteOnOff, TRIGGER_SPLIT_NOTES, TRIGGER_PAUSE_NOTES,
      CHORD_WINDOW_SECONDS, SUPPRESS_AFTER_TRIGGER_SECONDS, List.dropWhile,
      List.foldl]
  exact ⟨hpaused, c4_paused_implies_no_session opsC4 hpaused⟩

/-! ## The chord window (C5, C1) -/

theorem all_mem_single_eq_false {x y z a : ℕ} (hxy : x ≠ y) :
    ([x, y, z].all (fun t => t ∈ [a])) = false := by
  by_contra h
  rw [Bool.not_eq_false, List.all_eq_true] at h
  have hx := h x (by simp)
  have hy := h y (by simp)
  simp at hx hy
  omega

theorem all_mem_pair_eq_false {x y z a b : ℕ} (hxy : x ≠ y) (hxz : x ≠ z)
    (hyz : y ≠ z) : ([x, y, z].all (fun t => t ∈ [a, b])) = false := by
  by_contra h
  rw [Bool.not_eq_false, List.all_eq_true] at h
  have hx := h x (by simp)
  have hy := h y (by simp)
  have hz := h z (by simp)
  simp at hx hy hz
  omega

theorem split_all_mem_triple {a b c : ℕ} (ha : a ∈ TRIGGER_SPLIT_NOTES)
    (hb : b ∈ TRIGGER_SPLIT_NOTES) (hc : c ∈ TRIGGER_SPLIT_NOTES)
    (hab : a ≠ b) (hac : a ≠ c) (hbc : b ≠ c) :
    TRIGGER_SPLIT_NOTES.all (fun t => t ∈ [a, b, c]) = true := by
  simp only [TRIGGER_SPLIT_NOTES, List.mem_cons, List.not_mem_nil,
    or_false] at ha hb hc
  rw [List.all_eq_true]
  intro x hx
  simp only [TRIGGER_SPLIT_NOTES, List.mem_cons, List.not_mem_nil,
    or_false] at hx
  simp only [List.mem_cons, List.not_mem_nil, or_false, decide_eq_true_eq]
  omega

/-- `process` on a positive note-on with no armed suppression and neither
chord completed: the note joins the pruned window and no action fires. -/
theorem process_noSup_noteOn (st : ChordState) (t : ℚ) (n v : ℕ)
    (hsup : st.suppressed_until = []) (hv : 0 < v)
    (hsplit : TRIGGER_SPLIT_NOTES.all
      (fun x => x ∈ (cleanRecent t st.recent_on ++ [(t, n)]).map Prod.snd)
      = false)
    (hpause : TRIGGER_PAUSE_NOTES.all
      (fun x => x ∈ (cleanRecent t st.recent_on ++ [(t, n)]).map Prod.snd)
      = false) :
    process st t (.noteOn n v)
      = (⟨cleanRecent t st.recent_on ++ [(t, n)], []⟩, false, false, false) := by
  simp [process, processDetect, Msg.noteOnOff, hsup, cleanSuppressed,
    dictFind, hv, hsplit, hpause]

/-- `process` on a positive note-on with no armed suppression that
completes the split chord: split fires, suppression is armed, the window is
cleared. -/
theorem process_noSup_noteOn_split (st : ChordState) (t : ℚ) (n v : ℕ)
    (hsup : st.suppressed_until = []) (hv : 0 < v)
    (hsplit : TRIGGER_SPLIT_NOTES.all
      (fun x => x ∈ (cleanRecent t st.recent_on ++ [(t, n)]).map Prod.snd)
      = true) :
    process st t (.noteOn n v)
      = (⟨[], armSuppression t [] TRIGGER_SPLIT_NOTES⟩, true, false, true) := by
  simp [process, processDetect, Msg.noteOnOff, hsup, cleanSuppressed,
    dictFind, hv, hsplit]

theorem c5_aux (evs : List (ℚ × Msg)) :
    ∀ (st : ChordState) (tLast : ℚ),
    st.suppressed_until = [] →
    (st.recent_on = [] ∨ (∃ n, st.recent_on = [(tLast, n)]) ∨
      (∃ u m n, st.recent_on = [(u, m), (tLast, n)] ∧ u < tLast)) →
    (∀ e ∈ evs, isPosNoteOn e.2 = true) →
    List.Chain' (fun a b : ℚ × Msg => a.1 + CHORD_WINDOW_SECONDS ≤ b.1) evs →
    (∀ b ∈ evs.head?, tLast + CHORD_WINDOW_SECONDS ≤ b.1) →
    ∀ out ∈ (processTrace st evs).2, out = (false, false, false) := by
  induction evs with
  | nil =>
    intro st tLast _ _ _ _ _ out hout
    simp [processTrace] at hout
  | cons e rest ih =>
    obtain ⟨t, m⟩ := e
    intro st tLast hsup hwin hpos hchain hhead
    obtain ⟨n, v, rfl, hv⟩ : ∃ n v, m = Msg.noteOn n v ∧ 0 < v := by
      have hm := hpos (t, m) (List.mem_cons_self _ _)
      cases m with
      | noteOn n v => exact ⟨n, v, rfl, by simpa [isPosNoteOn] using hm⟩
      | _ => simp [isPosNoteOn] at hm
    have htL : tLast + CHORD_WINDOW_SECONDS ≤ t := hhead (t, .noteOn n v) rfl
    have hW : (0 : ℚ) < CHORD_WINDOW_SECONDS := by
      norm_num [CHORD_WINDOW_SECONDS]
    -- the pruned-and-extended window has at most two entries
    have hrec : cleanRecent t st.recent_on ++ [(t, n)] = [(t, n)] ∨
        ∃ x y, cleanRecent t st.recent_on ++ [(t, n)] = [(x, y), (t, n)] ∧
          x < t := by
      rcases hwin with h0 | ⟨n0, h0⟩ | ⟨u, m0, n0, h0, hu⟩
      · left
        simp [h0, cleanRecent]
      · by_cases hcut : tLast < t - CHORD_WINDOW_SECONDS
        · left
          simp [h0, cleanRecent, List.dropWhile, hcut]
        · right
          exact ⟨tLast, n0, by simp [h0, cleanRecent, List.dropWhile, hcut],
            by linarith⟩
      · have hu' : u < t - CHORD_WINDOW_SECONDS := by linarith
        by_cases hcut : tLast < t - CHORD_WINDOW_SECONDS
        · left
          simp [h0, cleanRecent, List.dropWhile, hu', hcut]
        · right
          exact ⟨tLast, n0,
            by simp [h0, cleanRecent, List.dropWhile, hu', hcut],
            by linarith⟩
    -- the step fires nothing
    have hstep : process st t (.noteOn n v)
        = (⟨cleanRecent t st.recent_on ++ [(t, n)], []⟩,
            false, false, false) := by
      rcases hrec with hr | ⟨x, y, hr, _⟩
      · refine process_noSup_noteOn st t n v hsup hv ?_ ?_ <;> rw [hr]
        · exact all_mem_single_eq_false (by norm_num [TRIGGER_SPLIT_NOTES])
        · exact all_mem_single_eq_false (by norm_num [TRIGGER_PAUSE_NOTES])
      · refine process_noSup_noteOn st t n v hsup hv ?_ ?_ <;> rw [hr]
        · exact all_mem_pair_eq_false (by norm_num [TRIGGER_SPLIT_NOTES])
            (by norm_num [TRIGGER_SPLIT_NOTES])
            (by norm_num [TRIGGER_SPLIT_NOTES])
        · exact all_mem_pair_eq_false (by norm_num [TRIGGER_PAUSE_NOTES])
            (by norm_num [TRIGGER_PAUSE_NOTES])
            (by norm_num [TRIGGER_PAUSE_NOTES])
    intro out hout
    simp only [processTrace, hstep] at hout
    rcases List.mem_cons.mp hout with h | h
    · exact h
    · refine ih _ t rfl ?_ (fun e he => hpos e (List.mem_cons_of_mem _ he))
        (List.chain'_cons'.mp hchain).2 (fun b hb => ?_) out h
      · rcases hrec with hr | ⟨x, y, hr, hx⟩
        · rw [hr]; exact Or.inr (Or.inl ⟨n, rfl⟩)
        · rw [hr]; exact Or.inr (Or.inr ⟨x, y, n, rfl, hx⟩)
      · exact (List.chain'_cons'.mp hchain).1 b hb

/-- C5: for every trace of positive-velocity note-on events whose
consecutive events are spaced at least `CHORD_WINDOW_SECONDS` apart — even
one containing all three split-chord notes — no `process` call ever
returns the split action. -/
theorem c5_spaced_notes_never_split (evs : List (ℚ × Msg))
    (hpos : ∀ e ∈ evs, isPosNoteOn e.2 = true)
    (hgap : List.Chain'
      (fun a b : ℚ × Msg => a.1 + CHORD_WINDOW_SECONDS ≤ b.1) evs) :
    ∀ out ∈ (processTrace ChordState.init evs).2, out.1 = false := by
  intro out hout
  cases evs with
  | nil => simp [processTrace] at hout
  | cons e rest =>
    have := c5_aux (e :: rest) ChordState.init (e.1 - CHORD_WINDOW_SECONDS)
      rfl (Or.inl rfl) hpos hgap
      (by intro b hb; cases hb; linarith) out hout
    rw [this]

/-- Witness for C5: the split chord struck at exactly 150 ms spacing never
fires the split (first output of the trace). -/
theorem c5_spaced_notes_never_split_witness :
    ((processTrace ChordState.init evsC5).2.headI).1 = false := by
  refine c5_spaced_notes_never_split evsC5 (by decide) ?_ _ ?_
  · norm_num [evsC5, List.chain'_cons, CHORD_WINDOW_SECONDS]
  · norm_num [evsC5, processTrace, process, processDetect,
      ChordState.init, cleanRecent, cleanSuppressed, dictFind, dictSet,
      armSuppression, Msg.noteOnOff, TRIGGER_SPLIT_NOTES,
      TRIGGER_PAUSE_NOTES, CHORD_WINDOW_SECONDS, List.dropWhile]

theorem c1_post (t3 : ℚ) : ∀ post : List (ℚ × Msg),
    (∀ e ∈ post,
      (∃ n, e.2.noteOnOff = some n ∧ n ∈ TRIGGER_SPLIT_NOTES) ∧
        t3 ≤ e.1 ∧ e.1 < t3 + SUPPRESS_AFTER_TRIGGER_SECONDS) →
    processTrace ⟨[], [(105, t3 + SUPPRESS_AFTER_TRIGGER_SECONDS),
        (107, t3 + SUPPRESS_AFTER_TRIGGER_SECONDS),
        (108, t3 + SUPPRESS_AFTER_TRIGGER_SECONDS)]⟩ post
      = (⟨[], [(105, t3 + SUPPRESS_AFTER_TRIGGER_SECONDS),
          (107, t3 + SUPPRESS_AFTER_TRIGGER_SECONDS),
          (108, t3 + SUPPRESS_AFTER_TRIGGER_SECONDS)]⟩,
        post.map (fun _ => (false, false, true))) := by
  intro post
  induction post with
  | nil => intro _; simp [processTrace]
  | cons e rest ih =>
    intro hpost
    obtain ⟨t', m⟩ := e
    obtain ⟨⟨n, hn, hnmem⟩, ht1, ht2⟩ := hpost (t', m) (List.mem_cons_self _ _)
    have hkeep : ¬ (t3 + SUPPRESS_AFTER_TRIGGER_SECONDS ≤ t') := not_le.mpr ht2
    have hclean : cleanSuppressed t'
        [(105, t3 + SUPPRESS_AFTER_TRIGGER_SECONDS),
          (107, t3 + SUPPRESS_AFTER_TRIGGER_SECONDS),
          (108, t3 + SUPPRESS_AFTER_TRIGGER_SECONDS)]
        = [(105, t3 + SUPPRESS_AFTER_TRIGGER_SECONDS),
            (107, t3 + SUPPRESS_AFTER_TRIGGER_SECONDS),
            (108, t3 + SUPPRESS_AFTER_TRIGGER_SECONDS)] := by
      have ht2' : t' < t3 + SUPPRESS_AFTER_TRIGGER_SECONDS := ht2
      simp only [cleanSuppressed, List.filter, not_le, decide_eq_true_eq]
      simp [ht2']
    have hfind : (dictFind
        [(105, t3 + SUPPRESS_AFTER_TRIGGER_SECONDS),
          (107, t3 + SUPPRESS_AFTER_TRIGGER_SECONDS),
          (108, t3 + SUPPRESS_AFTER_TRIGGER_SECONDS)] n).isSome = true := by
      simp only [TRIGGER_SPLIT_NOTES, List.mem_cons, List.not_mem_nil,
        or_false] at hnmem
      rcases hnmem with rfl | rfl | rfl <;> simp [dictFind, List.find?]
    have hstep : process ⟨[], [(105, t3 + SUPPRESS_AFTER_TRIGGER_SECONDS),
        (107, t3 + SUPPRESS_AFTER_TRIGGER_SECONDS),
        (108, t3 + SUPPRESS_AFTER_TRIGGER_SECONDS)]⟩ t' m
        = (⟨[], [(105, t3 + SUPPRESS_AFTER_TRIGGER_SECONDS),
            (107, t3 + SUPPRESS_AFTER_TRIGGER_SECONDS),
            (108, t3 + SUPPRESS_AFTER_TRIGGER_SECONDS)]⟩,
          false, false, true) := by
      simp only [process, hclean]
      rw [hn]
      simp [hfind]
    simp only [processTrace, hstep]
    rw [ih (fun e he => hpost e (List.mem_cons_of_mem _ he))]
    simp

/-- C1: when the three split-chord notes arrive as positive-velocity
note-ons within 150 ms of each other (in any order), `process` returns the
split action exactly once — on the call at which the third distinct chord
note enters the window — with `suppress = true`; it clears the window and
arms suppression for exactly the notes 105, 107, 108, so every subsequent
note-on/note-off event of those notes strictly within the next 2 seconds is
suppressed with no action. -/
theorem c1_split_chord_fires_once (a b c v1 v2 v3 : ℕ) (t1 t2 t3 : ℚ)
    (post : List (ℚ × Msg))
    (ha : a ∈ TRIGGER_SPLIT_NOTES) (hb : b ∈ TRIGGER_SPLIT_NOTES)
    (hc : c ∈ TRIGGER_SPLIT_NOTES) (hab : a ≠ b) (hac : a ≠ c) (hbc : b ≠ c)
    (hv1 : 0 < v1) (hv2 : 0 < v2) (hv3 : 0 < v3)
    (h12 : t1 ≤ t2) (h23 : t2 ≤ t3) (h13 : t3 - t1 ≤ CHORD_WINDOW_SECONDS)
    (hpost : ∀ e ∈ post,
      (∃ n, e.2.noteOnOff = some n ∧ n ∈ TRIGGER_SPLIT_NOTES) ∧
        t3 ≤ e.1 ∧ e.1 < t3 + SUPPRESS_AFTER_TRIGGER_SECONDS) :
    processTrace ChordState.init
        ((t1, .noteOn a v1) :: (t2, .noteOn b v2) :: (t3, .noteOn c v3)
          :: post)
      = (⟨[], [(105, t3 + SUPPRESS_AFTER_TRIGGER_SECONDS),
            (107, t3 + SUPPRESS_AFTER_TRIGGER_SECONDS),
            (108, t3 + SUPPRESS_AFTER_TRIGGER_SECONDS)]⟩,
          (false, false, false) :: (false, false, false)
            :: (true, false, true)
            :: post.map (fun _ => (false, false, true))) := by
  have hW : (0 : ℚ) < CHORD_WINDOW_SECONDS := by norm_num [CHORD_WINDOW_SECONDS]
  have w1 : cleanRecent t1 (ChordState.init).recent_on ++ [(t1, a)]
      = [(t1, a)] := by
    simp [ChordState.init, cleanRecent]
  have step1 := process_noSup_noteOn ChordState.init t1 a v1 rfl hv1
    (by rw [w1]
        exact all_mem_single_eq_false (by norm_num [TRIGGER_SPLIT_NOTES]))
    (by rw [w1]
        exact all_mem_single_eq_false (by norm_num [TRIGGER_PAUSE_NOTES]))
  rw [w1] at step1
  have hnc2 : ¬ (t1 < t2 - CHORD_WINDOW_SECONDS) := by
    simp only [not_lt]
    linarith
  have w2 : cleanRecent t2 ((⟨[(t1, a)], []⟩ : ChordState)).recent_on
      ++ [(t2, b)] = [(t1, a), (t2, b)] := by
    simp [cleanRecent, List.dropWhile, hnc2]
  have step2 := process_noSup_noteOn ⟨[(t1, a)], []⟩ t2 b v2 rfl hv2
    (by rw [w2]
        exact all_mem_pair_eq_false (by norm_num [TRIGGER_SPLIT_NOTES])
          (by norm_num [TRIGGER_SPLIT_NOTES])
          (by norm_num [TRIGGER_SPLIT_NOTES]))
    (by rw [w2]
        exact all_mem_pair_eq_false (by norm_num [TRIGGER_PAUSE_NOTES])
          (by norm_num [TRIGGER_PAUSE_NOTES])
          (by norm_num [TRIGGER_PAUSE_NOTES]))
  rw [w2] at step2
  have hnc3 : ¬ (t1 < t3 - CHORD_WINDOW_SECONDS) := by
    simp only [not_lt]
    linarith
  have w3 : cleanRecent t3 ((⟨[(t1, a), (t2, b)], []⟩ : ChordState)).recent_on
      ++ [(t3, c)] = [(t1, a), (t2, b), (t3, c)] := by
    simp [cleanRecent, List.dropWhile, hnc3]
  have step3 := process_noSup_noteOn_split ⟨[(t1, a), (t2, b)], []⟩ t3 c v3
    rfl hv3
    (by rw [w3]
        exact split_all_mem_triple ha hb hc hab hac hbc)
  have harm : armSuppression t3 [] TRIGGER_SPLIT_NOTES
      = [(105, t3 + SUPPRESS_AFTER_TRIGGER_SECONDS),
          (107, t3 + SUPPRESS_AFTER_TRIGGER_SECONDS),
          (108, t3 + SUPPRESS_AFTER_TRIGGER_SECONDS)] := by
    norm_num [armSuppression, TRIGGER_SPLIT_NOTES, dictSet, List.find?]
  rw [harm] at step3
  simp only [processTrace, step1, step2, step3]
  rw [c1_post t3 post hpost]

/-- Witness for C1: the split chord struck in the order 107, 105, 108 over
exactly 150 ms, followed by on/off events of chord notes within 2 s. -/
theorem c1_split_chord_fires_once_witness :
    processTrace ChordState.init
        ((0, .noteOn 107 64) :: (1/20, .noteOn 105 64)
          :: (3/20, .noteOn 108 64) :: postC1)
      = (⟨[], [(105, 3/20 + SUPPRESS_AFTER_TRIGGER_SECONDS),
            (107, 3/20 + SUPPRESS_AFTER_TRIGGER_SECONDS),
            (108, 3/20 + SUPPRESS_AFTER_TRIGGER_SECONDS)]⟩,
          [(false, false, false), (false, false, false), (true, false, true),
            (false, false, true), (false, false, true)]) := by
  have hpostpf : ∀ e ∈ postC1,
      (∃ n, e.2.noteOnOff = some n ∧ n ∈ TRIGGER_SPLIT_NOTES) ∧
        (3 : ℚ)/20 ≤ e.1 ∧ e.1 < 3/20 + SUPPRESS_AFTER_TRIGGER_SECONDS := by
    intro e he
    simp only [postC1, List.mem_cons, List.not_mem_nil, or_false] at he
    rcases he with rfl | rfl
    · exact ⟨⟨108, rfl, by norm_num [TRIGGER_SPLIT_NOTES]⟩, by norm_num,
        by norm_num [SUPPRESS_AFTER_TRIGGER_SECONDS]⟩
    · exact ⟨⟨105, rfl, by norm_num [TRIGGER_SPLIT_NOTES]⟩, by norm_num,
        by norm_num [SUPPRESS_AFTER_TRIGGER_SECONDS]⟩
  have h := c1_split_chord_fires_once 107 105 108 64 64 64 0 (1/20) (3/20)
    postC1 (by norm_num [TRIGGER_SPLIT_NOTES])
    (by norm_num [TRIGGER_SPLIT_NOTES]) (by norm_num [TRIGGER_SPLIT_NOTES])
    (by norm_num) (by norm_num) (by norm_num)
    (by norm_num) (by norm_num) (by norm_num)
    (by norm_num) (by norm_num) (by norm_num [CHORD_WINDOW_SECONDS]) hpostpf
  simpa [postC1] using h

/-! ## Round-trip decoding (C7) -/

theorem roundtrip_bound (d : ℚ) (T : ℕ) (hd : 0 ≤ d) (hT : 0 < T) :
    |tick2second (seconds_to_ticks d T) T - d| ≤ tick2second 1 T := by
  have hT' : (0 : ℚ) < (T : ℚ) := by exact_mod_cast hT
  have hxval : second2tick d TICKS_PER_BEAT T = d * (480 * 1000000) / T := by
    unfold second2tick TICKS_PER_BEAT
    push_cast
    rw [show (T : ℚ) * (1 / 1000000) / 480 = (T : ℚ) / (480 * 1000000) by
      ring]
    rw [div_div_eq_mul_div]
  have hx0 : 0 ≤ second2tick d TICKS_PER_BEAT T := by
    rw [hxval]
    positivity
  have hmax : seconds_to_ticks d T = pyRound (second2tick d TICKS_PER_BEAT T) := by
    rw [seconds_to_ticks, max_eq_right (pyRound_nonneg hx0)]
  have hu : (0 : ℚ) < (T : ℚ) / 1000000 / 480 := by positivity
  have hub := pyRound_le (second2tick d TICKS_PER_BEAT T)
  have hlb := le_pyRound (second2tick d TICKS_PER_BEAT T)
  have h1 : (second2tick d TICKS_PER_BEAT T - 1 / 2) * ((T : ℚ) / 1000000 / 480)
      ≤ (pyRound (second2tick d TICKS_PER_BEAT T) : ℚ) * ((T : ℚ) / 1000000 / 480) :=
    mul_le_mul_of_nonneg_right hlb hu.le
  have h2 : (pyRound (second2tick d TICKS_PER_BEAT T) : ℚ) * ((T : ℚ) / 1000000 / 480)
      ≤ (second2tick d TICKS_PER_BEAT T + 1 / 2) * ((T : ℚ) / 1000000 / 480) :=
    mul_le_mul_of_nonneg_right hub hu.le
  have e1 : tick2second (pyRound (second2tick d TICKS_PER_BEAT T)) T
      = (pyRound (second2tick d TICKS_PER_BEAT T) : ℚ) * ((T : ℚ) / 1000000 / 480) := by
    rw [tick2second]
    unfold TICKS_PER_BEAT
    push_cast
    ring
  have e2 : tick2second 1 T = (T : ℚ) / 1000000 / 480 := by
    rw [tick2second]
    unfold TICKS_PER_BEAT
    push_cast
    ring
  have hd' : second2tick d TICKS_PER_BEAT T * ((T : ℚ) / 1000000 / 480)
      = d := by
    rw [hxval]
    have hT0 : (T : ℚ) ≠ 0 := ne_of_gt hT'
    field_simp
    exact Or.inl (by norm_num)
  rw [hmax, e1, e2, abs_le]
  constructor <;> nlinarith [h1, h2, hu, hd']

theorem c7_aux (evs : List (ℚ × Msg)) :
    ∀ (s : RecState) (tr : List TrackEntry) (t0 : ℚ),
    s.mid = some () → s.track = some tr → s.last_event_real = some t0 →
    0 < s.current_tempo →
    (∀ e ∈ evs, isSetTempo e.2 = false) →
    List.Chain' (· ≤ ·) (t0 :: evs.map Prod.fst) →
    ∃ new : List TrackEntry,
      (feedTrace evs 0 s).track = some (tr ++ new) ∧
        List.Forall₂
          (fun (entry : TrackEntry) (d : ℚ) =>
            |tick2second entry.time s.current_tempo - d|
              ≤ tick2second 1 s.current_tempo)
          new (delays t0 (evs.map Prod.fst)) := by
  induction evs with
  | nil =>
    intro s tr t0 _ htr _ _ _ _
    exact ⟨[], by simpa [feedTrace] using htr, by simp [delays]⟩
  | cons e rest ih =>
    obtain ⟨t, m⟩ := e
    intro s tr t0 hmid htr hlast htempo hnt hchain
    have hm : isSetTempo m = false := hnt (t, m) (List.mem_cons_self _ _)
    have hfeed : feed t 0 m s = { s with
        last_event_real := some t
        track := some (tr ++
          [⟨m, seconds_to_ticks (t - t0) s.current_tempo⟩]) } := by
      cases m with
      | setTempo T => simp [isSetTempo] at hm
      | noteOn n v => simp [feed, append_with_delta, hmid, htr, hlast]
      | noteOff n => simp [feed, append_with_delta, hmid, htr, hlast]
      | endOfTrack => simp [feed, append_with_delta, hmid, htr, hlast]
      | trackName => simp [feed, append_with_delta, hmid, htr, hlast]
      | other => simp [feed, append_with_delta, hmid, htr, hlast]
    have hchain' := List.chain'_cons.mp (by simpa using hchain)
    obtain ⟨new, hnew, hfa⟩ := ih (feed t 0 m s)
      (tr ++ [⟨m, seconds_to_ticks (t - t0) s.current_tempo⟩]) t
      (by simp [hfeed, hmid]) (by simp [hfeed]) (by simp [hfeed])
      (by simpa [hfeed] using htempo)
      (fun e he => hnt e (List.mem_cons_of_mem _ he))
      (by simpa [hfeed] using hchain'.2)
    refine ⟨⟨m, seconds_to_ticks (t - t0) s.current_tempo⟩ :: new, ?_, ?_⟩
    · have : feedTrace ((t, m) :: rest) 0 s = feedTrace rest 0 (feed t 0 m s) := rfl
      rw [this, hnew]
      simp
    · simp only [List.map_cons, delays]
      refine List.Forall₂.cons ?_ ?_
      · exact roundtrip_bound (t - t0) s.current_tempo
          (by linarith [hchain'.1]) htempo
      · simpa [hfeed] using hfa

/-- C7: feeding any sequence of non-tempo-change events with non-negative
inter-arrival delays into an open session records tick-deltas whose decoding
back to seconds (at the tempo in effect) reproduces each original delay to
within one tick's worth of seconds. -/
theorem c7_roundtrip (evs : List (ℚ × Msg)) (s : RecState)
    (tr : List TrackEntry) (t0 : ℚ)
    (hmid : s.mid = some ()) (htr : s.track = some tr)
    (hlast : s.last_event_real = some t0) (htempo : 0 < s.current_tempo)
    (hnt : ∀ e ∈ evs, isSetTempo e.2 = false)
    (hchain : List.Chain' (· ≤ ·) (t0 :: evs.map Prod.fst)) :
    ∃ new : List TrackEntry,
      (feedTrace evs 0 s).track = some (tr ++ new) ∧
        List.Forall₂
          (fun (entry : TrackEntry) (d : ℚ) =>
            |tick2second entry.time s.current_tempo - d|
              ≤ tick2second 1 s.current_tempo)
          new (delays t0 (evs.map Prod.fst)) :=
  c7_aux evs s tr t0 hmid htr hlast htempo hnt hchain

/-- Witness for C7 on a concrete two-event trace. -/
theorem c7_roundtrip_witness :
    ∃ new : List TrackEntry,
      (feedTrace [(1, Msg.noteOn 60 100), (2, Msg.noteOff 60)] 0 recC2).track
          = some (trC2 ++ new) ∧
        List.Forall₂
          (fun (entry : TrackEntry) (d : ℚ) =>
            |tick2second entry.time recC2.current_tempo - d|
              ≤ tick2second 1 recC2.current_tempo)
          new (delays 0 ([(1, Msg.noteOn 60 100), (2, Msg.noteOff 60)].map
            Prod.fst)) :=
  c7_roundtrip [(1, Msg.noteOn 60 100), (2, Msg.noteOff 60)] recC2 trC2 0
    rfl rfl rfl (by norm_num [recC2]) (by decide)
    (by norm_num [List.chain'_cons])

end MIDIRec
